import Mathlib

/-!
Verification development for the `ppo_baseline` repository.

The Python sources are embedded shallowly:
* `RolloutBuffer` (src/buffer.py) becomes a structure of six parallel lists;
  floating point numbers are modelled as rationals `ℚ`.
* `compute_returns_and_advantages` becomes a structurally recursive backward
  pass (`gaeAdvantages`), written for parallel lists of equal length exactly
  as the Python loop indexes them.
* The PPO mini-batch losses (src/ppo_trainer.py, `PPOTrainer.update`,
  lines 109-131) become functions over lists in a linear ordered field;
  `torch.exp` is instantiated with `Real.exp` in the theorems.
* `ServiceDeploymentEnv` (src/environment.py) becomes an explicit state
  machine; the random draws of `np_random.choice` are supplied as
  parameters covering every possible outcome, and the next event drawn by
  `_generate_next_event` is likewise a parameter.
-/

namespace PPOBaseline

/-! ## Rollout buffer (src/buffer.py) -/

/-- Shallow embedding of `RolloutBuffer.__init__`'s six parallel lists.
Python appends at the end; the lists store elements in insertion order. -/
structure RolloutBuffer where
  states : List (List ℚ)
  actions : List ℤ
  rewards : List ℚ
  log_probs : List ℚ
  values : List ℚ
  dones : List Bool
deriving DecidableEq, Repr

/-- A freshly constructed buffer: all six sequences empty. -/
def RolloutBuffer.fresh : RolloutBuffer :=
  { states := [], actions := [], rewards := [], log_probs := [], values := [], dones := [] }

/-- `RolloutBuffer.add`: append one transition to each of the six lists. -/
def RolloutBuffer.add (b : RolloutBuffer) (state : List ℚ) (action : ℤ) (reward : ℚ)
    (log_prob : ℚ) (value : ℚ) (done : Bool) : RolloutBuffer :=
  { states := b.states ++ [state]
    actions := b.actions ++ [action]
    rewards := b.rewards ++ [reward]
    log_probs := b.log_probs ++ [log_prob]
    values := b.values ++ [value]
    dones := b.dones ++ [done] }

/-- `RolloutBuffer.clear`: reset every sequence to the empty list. -/
def RolloutBuffer.clear (_b : RolloutBuffer) : RolloutBuffer := RolloutBuffer.fresh

/-- `RolloutBuffer.__len__`: the number of stored transitions, measured on
`states` as in the source. -/
def RolloutBuffer.length (b : RolloutBuffer) : ℕ := b.states.length

/-- `RolloutBuffer.get`: reads the stored sequences and returns them as a
tuple; the buffer itself is threaded through unchanged, mirroring that the
method performs no assignment to `self`. -/
def RolloutBuffer.get (b : RolloutBuffer) :
    RolloutBuffer × (List (List ℚ) × List ℤ × List ℚ × List ℚ × List ℚ) :=
  (b, (b.states, b.actions, b.rewards, b.log_probs, b.values))

/-- Conversion of a stored done flag to the numeric value `np.array` /
arithmetic gives it inside `compute_returns_and_advantages`. -/
def doneVal (d : Bool) : ℚ := if d then 1 else 0

/-- The backward GAE loop of `compute_returns_and_advantages`
(src/buffer.py lines 76-85), for parallel lists of equal length.
At position `t` (head of the remaining lists) the code uses
`next_value = values[t+1]` unless `t` is the last index, where it is `0`;
`delta = r + gamma * next_value * (1 - d) - v`; the accumulator entering
position `t` is the advantage just computed at `t+1` (or `0` at the end),
which is the head of the recursive result. -/
def gaeAdvantages (gamma gae_lambda : ℚ) : List ℚ → List ℚ → List ℚ → List ℚ
  | r :: rs, v :: vs, d :: ds =>
    let rest := gaeAdvantages gamma gae_lambda rs vs ds
    let next_value : ℚ := if rs.isEmpty then 0 else vs.headD 0
    let delta := r + gamma * next_value * (1 - d) - v
    (delta + gamma * gae_lambda * (1 - d) * rest.headD 0) :: rest
  | _, _, _ => []

/-- `RolloutBuffer.compute_returns_and_advantages`: runs the GAE backward
pass over the stored rewards, values and dones and returns
`(returns, advantages)` with `returns = advantages + values` elementwise
(src/buffer.py line 88). The buffer is threaded through unchanged: the
method only reads `self`. -/
def RolloutBuffer.compute_returns_and_advantages (b : RolloutBuffer)
    (gamma gae_lambda : ℚ) : RolloutBuffer × (List ℚ × List ℚ) :=
  let advantages := gaeAdvantages gamma gae_lambda b.rewards b.values (b.dones.map doneVal)
  let returns := List.zipWith (· + ·) advantages b.values
  (b, (returns, advantages))

/-- One buffer operation, for reasoning about arbitrary call sequences. -/
inductive BufOp where
  | addT (state : List ℚ) (action : ℤ) (reward : ℚ) (log_prob : ℚ) (value : ℚ) (done : Bool)
  | clearT
deriving DecidableEq

/-- Apply one buffer operation. -/
def applyOp (b : RolloutBuffer) : BufOp → RolloutBuffer
  | .addT s a r lp v d => b.add s a r lp v d
  | .clearT => b.clear

/-- Apply a sequence of buffer operations in order. -/
def applyOps (b : RolloutBuffer) (ops : List BufOp) : RolloutBuffer :=
  ops.foldl applyOp b

/-- The six parallel sequences of a buffer have equal length. -/
def EqLens (b : RolloutBuffer) : Prop :=
  b.actions.length = b.states.length ∧
  b.rewards.length = b.states.length ∧
  b.log_probs.length = b.states.length ∧
  b.values.length = b.states.length ∧
  b.dones.length = b.states.length

/-! ## PPO mini-batch losses (src/ppo_trainer.py, `PPOTrainer.update`,
lines 109-131)

The loss formulas are embedded over an arbitrary linear ordered field so
they stay executable on `ℚ`; the theorems instantiate them at `ℝ` with
`torch.exp` modelled by `Real.exp`. -/

section Losses

variable {α : Type} [LinearOrderedField α]

/-- `torch.clamp(x, lo, hi)`. -/
def clamp (x lo hi : α) : α := min (max x lo) hi

/-- `.mean()` of a tensor viewed as a list. -/
def mean (xs : List α) : α := xs.sum / (xs.length : α)

/-- `ratio = torch.exp(log_probs - batch_old_log_probs)`, elementwise, with
the exponential passed as a parameter (`Real.exp` in the theorems). -/
def ratio (e : α → α) (log_probs old_log_probs : List α) : List α :=
  List.zipWith (fun n o => e (n - o)) log_probs old_log_probs

/-- Lines 113-115: `surr1 = ratio * adv`, `surr2 = clamp(ratio, 1-eps, 1+eps)
* adv`, `policy_loss = -min(surr1, surr2).mean()`. -/
def policy_loss (eps : α) (ratios advantages : List α) : α :=
  -(mean (List.zipWith
    (fun r a => min (r * a) (clamp r (1 - eps) (1 + eps) * a)) ratios advantages))

/-- The loss the spec calls the clipped branch of the surrogate objective:
the mean of `clamp(ratio, 1-eps, 1+eps) * advantage` alone, negated. -/
def clipped_policy_loss (eps : α) (ratios advantages : List α) : α :=
  -(mean (List.zipWith (fun r a => clamp r (1 - eps) (1 + eps) * a) ratios advantages))

/-- Three-list pointwise zip, used to state the value loss. -/
def zipWith3 (f : α → α → α → α) : List α → List α → List α → List α
  | x :: xs, y :: ys, z :: zs => f x y z :: zipWith3 f xs ys zs
  | _, _, _ => []

/-- Lines 118-125: `values_clipped = old + clamp(values - old, -eps, eps)`;
`value_loss = max((values - returns)^2, (values_clipped - returns)^2).mean()`. -/
def value_loss (eps : α) (values old_values returns : List α) : α :=
  mean (zipWith3
    (fun v ov ret => max ((v - ret) ^ 2) ((ov + clamp (v - ov) (-eps) eps - ret) ^ 2))
    values old_values returns)

/-- Line 128: `entropy_loss = -entropy.mean()`. -/
def entropy_loss (entropies : List α) : α := -(mean entropies)

/-- Line 131: `loss = policy_loss + value_coef * value_loss +
entropy_coef * entropy_loss`. -/
def total_loss (eps value_coef entropy_coef : α)
    (ratios advantages values old_values returns entropies : List α) : α :=
  policy_loss eps ratios advantages
    + value_coef * value_loss eps values old_values returns
    + entropy_coef * entropy_loss entropies

end Losses

/-! ## Service deployment environment (src/environment.py)

`np_random.choice(candidates)` is modelled by an arbitrary draw `d : ℕ`
selecting `candidates[d % len(candidates)]`, which ranges over every
possible outcome; the event drawn by `_generate_next_event` is likewise an
arbitrary parameter. `float` state entries are modelled as `ℚ`. -/

/-- The five event kinds of `EVENT_TYPES`, in list order. -/
inductive Event where
  | agent_arrival
  | agent_departure
  | node_failure
  | node_recovery
  | no_event
deriving DecidableEq, Repr

/-- Index of an event in `EVENT_TYPES`. -/
def eventIdx : Event → ℕ
  | .agent_arrival => 0
  | .agent_departure => 1
  | .node_failure => 2
  | .node_recovery => 3
  | .no_event => 4

/-- `num_event_types = len(EVENT_TYPES)`. -/
def numEventTypes : ℕ := 5

/-- Constructor parameters kept on the environment object. -/
structure EnvConfig where
  num_nodes : ℕ
  num_services : ℤ
  max_agents : ℤ
  default_node_capacity : ℚ
  event_probabilities : List ℚ
deriving DecidableEq, Repr

/-- The mutable state of `ServiceDeploymentEnv`. -/
structure EnvState where
  node_status : List ℚ
  node_occupancy : List ℚ
  node_capacity : List ℚ
  num_agents : ℤ
  current_event : Event
  steps : ℕ
  max_steps : ℕ
deriving DecidableEq, Repr

/-- Python `int(...)` truncation toward zero of a float, as used in
`int(self.num_agents - lost_services)`. -/
def intTrunc (q : ℚ) : ℤ := if 0 ≤ q then ⌊q⌋ else ⌈q⌉

/-- One-hot encoding of the current event over `numEventTypes` slots. -/
def eventOneHot (e : Event) : List ℚ :=
  (List.range numEventTypes).map (fun k => if k = eventIdx e then 1 else 0)

/-- `_get_observation`: one-hot event, node status flags, occupancy divided
elementwise by capacity, and `num_agents / max_agents`. -/
def getObservation (cfg : EnvConfig) (s : EnvState) : List ℚ :=
  eventOneHot s.current_event ++ s.node_status ++
    List.zipWith (fun o c => o / c) s.node_occupancy s.node_capacity ++
    [(s.num_agents : ℚ) / (cfg.max_agents : ℚ)]

/-- `reset`: all nodes active and empty, no agents, event `no_event`,
step counter 0, horizon 100; returns the canonical state and its
observation. -/
def reset (cfg : EnvConfig) : EnvState × List ℚ :=
  let s : EnvState :=
    { node_status := List.replicate cfg.num_nodes 1
      node_occupancy := List.replicate cfg.num_nodes 0
      node_capacity := List.replicate cfg.num_nodes cfg.default_node_capacity
      num_agents := 0
      current_event := .no_event
      steps := 0
      max_steps := 100 }
  (s, getObservation cfg s)

/-- Selection of one member of a candidate list by an arbitrary draw. -/
def chooseFrom (l : List ℕ) (draw : ℕ) : ℕ := l.getD (draw % l.length) 0

/-- The `agent_arrival` branch of `step` (lines 115-132). -/
def stepArrival (cfg : EnvConfig) (s : EnvState) (action : ℕ) : EnvState × ℚ :=
  if action < cfg.num_nodes then
    if s.node_status.getD action 0 = 1 ∧
        s.node_occupancy.getD action 0 < s.node_capacity.getD action 0 then
      ({ s with
          node_occupancy := s.node_occupancy.set action (s.node_occupancy.getD action 0 + 1)
          num_agents := s.num_agents + 1 }, 1)
    else (s, -1)
  else (s, -(1/2))

/-- The `agent_departure` branch of `step` (lines 134-142). -/
def stepDeparture (s : EnvState) (draw : ℕ) : EnvState × ℚ :=
  if 0 < s.num_agents then
    let occupied := (List.range s.node_occupancy.length).filter
      (fun j => decide (0 < s.node_occupancy.getD j 0))
    if occupied.isEmpty then (s, 0)
    else
      let j := chooseFrom occupied draw
      ({ s with
          node_occupancy := s.node_occupancy.set j (s.node_occupancy.getD j 0 - 1)
          num_agents := s.num_agents - 1 }, 0)
  else (s, 0)

/-- The `node_failure` branch of `step` (lines 144-155). -/
def stepFailure (s : EnvState) (draw : ℕ) : EnvState × ℚ :=
  let active := (List.range s.node_status.length).filter
    (fun j => decide (s.node_status.getD j 0 = 1))
  if active.isEmpty then (s, 0)
  else
    let j := chooseFrom active draw
    let lost := s.node_occupancy.getD j 0
    ({ s with
        node_status := s.node_status.set j 0
        node_occupancy := s.node_occupancy.set j 0
        num_agents := max 0 (intTrunc ((s.num_agents : ℚ) - lost)) }, -2 * lost)

/-- The `node_recovery` branch of `step` (lines 157-164). -/
def stepRecovery (s : EnvState) (draw : ℕ) : EnvState × ℚ :=
  let failed := (List.range s.node_status.length).filter
    (fun j => decide (s.node_status.getD j 0 = 0))
  if failed.isEmpty then (s, 0)
  else
    let j := chooseFrom failed draw
    ({ s with node_status := s.node_status.set j 1 }, 1/2)

/-- `step(action)`: dispatch on the current event, then increment the step
counter, install the next drawn event, and report
`(state, reward, terminated, truncated)`; `terminated` compares the
incremented counter against the horizon and `truncated` is always false. -/
def step (cfg : EnvConfig) (s : EnvState) (action : ℕ) (draw : ℕ) (next_event : Event) :
    EnvState × ℚ × Bool × Bool :=
  let er : EnvState × ℚ :=
    match s.current_event with
    | .agent_arrival => stepArrival cfg s action
    | .agent_departure => stepDeparture s draw
    | .node_failure => stepFailure s draw
    | .node_recovery => stepRecovery s draw
    | .no_event => (s, 0)
  let s2 := { er.1 with steps := er.1.steps + 1, current_event := next_event }
  (s2, er.2, decide (s2.max_steps ≤ s2.steps), false)

/-- Default `event_probabilities` (line 39). -/
def defaultEventProbabilities : List ℚ := [3/10, 2/10, 1/10, 1/10, 3/10]

/-- `ServiceDeploymentEnv.__init__`: stores the parameters (an empty or
missing probability list falls back to the default, as Python `or` does),
and fails only when the node count is negative, where `Discrete(num_nodes +
1)` and `np.ones(num_nodes)` reject the dimension; no other validation is
performed. It ends by calling `reset`. -/
def init (num_nodes : ℤ) (num_services : ℤ) (max_agents : ℤ) (node_capacity : ℚ)
    (event_probabilities : Option (List ℚ)) :
    Except String (EnvConfig × EnvState × List ℚ) :=
  if num_nodes < 0 then .error "negative dimensions are not allowed"
  else
    let probs := match event_probabilities with
      | some (p :: ps) => p :: ps
      | _ => defaultEventProbabilities
    let cfg : EnvConfig :=
      { num_nodes := num_nodes.toNat
        num_services := num_services
        max_agents := max_agents
        default_node_capacity := node_capacity
        event_probabilities := probs }
    .ok (cfg, reset cfg)

/-- States reachable from `reset` by any sequence of `step` calls, with any
actions, draws and event outcomes. -/
inductive Reachable (cfg : EnvConfig) : EnvState → Prop where
  | start : Reachable cfg (reset cfg).1
  | next (s : EnvState) (a draw : ℕ) (e : Event) :
      Reachable cfg s → Reachable cfg (step cfg s a draw e).1

/-- The inductive invariant of `ServiceDeploymentEnv` states. -/
def Inv (cfg : EnvConfig) (s : EnvState) : Prop :=
  s.node_status.length = cfg.num_nodes ∧
  s.node_occupancy.length = cfg.num_nodes ∧
  s.node_capacity = List.replicate cfg.num_nodes cfg.default_node_capacity ∧
  (s.num_agents : ℚ) = s.node_occupancy.sum ∧
  (∀ x ∈ s.node_occupancy, ∃ n : ℕ, x = (n : ℚ)) ∧
  (∀ x ∈ s.node_status, x = 0 ∨ x = 1) ∧
  (∀ i < cfg.num_nodes, s.node_status.getD i 0 = 0 → s.node_occupancy.getD i 0 = 0) ∧
  (0 < cfg.default_node_capacity →
    ∀ x ∈ s.node_occupancy, x < cfg.default_node_capacity + 1) ∧
  s.max_steps = 100

/-! ### Trace execution, for exhibiting concrete reachable states -/

/-- Run a list of `(action, draw, next event)` triples from the reset
state. -/
def runTrace (cfg : EnvConfig) (tr : List (ℕ × ℕ × Event)) : EnvState :=
  tr.foldl (fun s ade => (step cfg s ade.1 ade.2.1 ade.2.2).1) (reset cfg).1

/-- Concrete 3-node configuration with capacity 5, used in witnesses. -/
def cfgDefault : EnvConfig := ⟨3, 5, 10, 5, defaultEventProbabilities⟩

/-- A 1-node configuration with the fractional capacity 1/2. -/
def cfgHalf : EnvConfig := ⟨1, 5, 10, 1/2, defaultEventProbabilities⟩

/-- A 1-node configuration with capacity 5 and max_agents 1. -/
def cfgTiny : EnvConfig := ⟨1, 5, 1, 5, defaultEventProbabilities⟩

/-- A 1-node configuration with capacity 5. -/
def cfgOne : EnvConfig := ⟨1, 5, 10, 5, defaultEventProbabilities⟩

lemma eqLens_fresh : EqLens RolloutBuffer.fresh := by
  simp [EqLens, RolloutBuffer.fresh]

lemma eqLens_applyOp {b : RolloutBuffer} (h : EqLens b) (op : BufOp) :
    EqLens (applyOp b op) := by
  cases op with
  | addT s a r lp v d =>
    obtain ⟨h1, h2, h3, h4, h5⟩ := h
    simp [applyOp, RolloutBuffer.add, EqLens, h1, h2, h3, h4, h5]
  | clearT => simpa [applyOp, RolloutBuffer.clear] using eqLens_fresh

lemma eqLens_applyOps {b : RolloutBuffer} (h : EqLens b) (ops : List BufOp) :
    EqLens (applyOps b ops) := by
  induction ops generalizing b with
  | nil => simpa [applyOps] using h
  | cons op ops ih =>
    have := eqLens_applyOp h op
    simpa [applyOps, List.foldl_cons] using ih this

/-! ### Helper lemmas for the GAE characterization -/

lemma gaeAdvantages_nil (g l : ℚ) : gaeAdvantages g l [] [] [] = [] := by
  simp [gaeAdvantages]

lemma gaeAdvantages_cons (g l : ℚ) (r v d : ℚ) (rs vs ds : List ℚ) :
    gaeAdvantages g l (r :: rs) (v :: vs) (d :: ds) =
      (r + g * (if rs.isEmpty then 0 else vs.headD 0) * (1 - d) - v
        + g * l * (1 - d) * (gaeAdvantages g l rs vs ds).headD 0)
        :: gaeAdvantages g l rs vs ds := by
  simp [gaeAdvantages]

lemma gaeAdvantages_length (g l : ℚ) (rs vs ds : List ℚ)
    (hv : vs.length = rs.length) (hd : ds.length = rs.length) :
    (gaeAdvantages g l rs vs ds).length = rs.length := by
  induction rs generalizing vs ds with
  | nil =>
    cases vs with
    | nil => cases ds <;> simp [gaeAdvantages]
    | cons v vs => simp at hv
  | cons r rs ih =>
    cases vs with
    | nil => simp at hv
    | cons v vs =>
      cases ds with
      | nil => simp at hd
      | cons d ds =>
        simp only [List.length_cons, Nat.succ.injEq] at hv hd
        rw [gaeAdvantages_cons]
        simp [ih vs ds hv hd]

lemma getD_zipWith_add (xs ys : List ℚ) (t : ℕ) (ht : t < xs.length)
    (ht2 : t < ys.length) :
    (List.zipWith (· + ·) xs ys).getD t 0 = xs.getD t 0 + ys.getD t 0 := by
  induction xs generalizing ys t with
  | nil => simp at ht
  | cons x xs ih =>
    cases ys with
    | nil => simp at ht2
    | cons y ys =>
      cases t with
      | zero => simp
      | succ t =>
        simp only [List.length_cons, Nat.succ_lt_succ_iff] at ht ht2
        simpa using ih ys t ht ht2

lemma headD_eq_getD_zero (l : List ℚ) : l.headD 0 = l.getD 0 0 := by
  cases l <;> simp

lemma getD_map_doneVal (ds : List Bool) (t : ℕ) (ht : t < ds.length) :
    (ds.map doneVal).getD t 0 = doneVal (ds.getD t false) := by
  induction ds generalizing t with
  | nil => simp at ht
  | cons d ds ih =>
    cases t with
    | zero => simp
    | succ t =>
      simp only [List.length_cons, Nat.succ_lt_succ_iff] at ht
      simpa using ih t ht

lemma gaeAdvantages_getD_last (g l : ℚ) (rs vs ds : List ℚ)
    (hv : vs.length = rs.length) (hd : ds.length = rs.length) (hne : rs ≠ []) :
    (gaeAdvantages g l rs vs ds).getD (rs.length - 1) 0 =
      rs.getD (rs.length - 1) 0 - vs.getD (rs.length - 1) 0 := by
  induction rs generalizing vs ds with
  | nil => exact absurd rfl hne
  | cons r rs ih =>
    cases vs with
    | nil => simp at hv
    | cons v vs =>
      cases ds with
      | nil => simp at hd
      | cons d ds =>
        simp only [List.length_cons, Nat.succ.injEq] at hv hd
        rw [gaeAdvantages_cons]
        cases rs with
        | nil =>
          have hvs : vs = [] := List.length_eq_zero.mp hv
          have hds : ds = [] := List.length_eq_zero.mp hd
          subst hvs hds
          simp [gaeAdvantages_nil]
        | cons r2 rs2 =>
          have hne2 : (r2 :: rs2 : List ℚ) ≠ [] := by simp
          have := ih vs ds hv hd hne2
          simp only [List.length_cons] at this ⊢
          simpa using this

lemma gaeAdvantages_getD_rec (g l : ℚ) (rs vs ds : List ℚ)
    (hv : vs.length = rs.length) (hd : ds.length = rs.length)
    (t : ℕ) (ht : t + 1 < rs.length) :
    (gaeAdvantages g l rs vs ds).getD t 0 =
      (rs.getD t 0 + g * vs.getD (t + 1) 0 * (1 - ds.getD t 0) - vs.getD t 0)
        + g * l * (1 - ds.getD t 0) * (gaeAdvantages g l rs vs ds).getD (t + 1) 0 := by
  induction rs generalizing vs ds t with
  | nil => simp at ht
  | cons r rs ih =>
    cases vs with
    | nil => simp at hv
    | cons v vs =>
      cases ds with
      | nil => simp at hd
      | cons d ds =>
        simp only [List.length_cons, Nat.succ.injEq] at hv hd
        simp only [List.length_cons, Nat.succ_lt_succ_iff] at ht
        cases t with
        | zero =>
          have hrs : rs ≠ [] := List.length_pos.mp ht
          cases rs with
          | nil => exact absurd rfl hrs
          | cons r2 rs2 =>
            cases vs with
            | nil => simp at hv
            | cons v2 vs2 =>
              rw [gaeAdvantages_cons]
              simp only [List.getD_cons_zero, List.getD_cons_succ, List.isEmpty_cons,
                Bool.false_eq_true, if_false, List.headD_cons, headD_eq_getD_zero]
        | succ t =>
          rw [gaeAdvantages_cons]
          simp only [List.getD_cons_succ]
          exact ih vs ds hv hd t ht

lemma zipWith_congr_getD (f f2 : ℝ → ℝ → ℝ) (xs ys : List ℝ)
    (h : ∀ i, i < xs.length → i < ys.length →
      f (xs.getD i 0) (ys.getD i 0) = f2 (xs.getD i 0) (ys.getD i 0)) :
    List.zipWith f xs ys = List.zipWith f2 xs ys := by
  induction xs generalizing ys with
  | nil => simp
  | cons x xs ih =>
    cases ys with
    | nil => simp
    | cons y ys =>
      have h0 := h 0 (by simp) (by simp)
      simp only [List.getD_cons_zero] at h0
      simp only [List.zipWith_cons_cons, h0, List.cons.injEq, true_and]
      apply ih
      intro i h1 h2
      have := h (i + 1) (by simpa using Nat.succ_lt_succ h1) (by simpa using Nat.succ_lt_succ h2)
      simpa using this

lemma min_surr_eq_clipped (eps r a : ℝ) (heps : 0 ≤ eps)
    (h : (1 + eps < r ∧ 0 ≤ a) ∨ (r < 1 - eps ∧ a ≤ 0)) :
    min (r * a) (clamp r (1 - eps) (1 + eps) * a) = clamp r (1 - eps) (1 + eps) * a := by
  rcases h with ⟨hr, ha⟩ | ⟨hr, ha⟩
  · have hclamp : clamp r (1 - eps) (1 + eps) = 1 + eps := by
      unfold clamp
      rw [max_eq_left (by linarith), min_eq_right (by linarith)]
    rw [hclamp]
    exact min_eq_right (mul_le_mul_of_nonneg_right (by linarith) ha)
  · have hclamp : clamp r (1 - eps) (1 + eps) = 1 - eps := by
      unfold clamp
      rw [max_eq_right (by linarith), min_eq_left (by linarith)]
    rw [hclamp]
    apply min_eq_right
    nlinarith

/-! ### List helpers for the environment proofs -/

lemma getD_set_self (l : List ℚ) (i : ℕ) (x : ℚ) (h : i < l.length) :
    (l.set i x).getD i 0 = x := by
  induction l generalizing i with
  | nil => simp at h
  | cons y l ih =>
    cases i with
    | zero => simp
    | succ i =>
      simp only [List.length_cons, Nat.succ_lt_succ_iff] at h
      simpa using ih i h

lemma getD_set_ne (l : List ℚ) (i j : ℕ) (x : ℚ) (h : j ≠ i) :
    (l.set i x).getD j 0 = l.getD j 0 := by
  induction l generalizing i j with
  | nil => simp
  | cons y l ih =>
    cases i with
    | zero =>
      cases j with
      | zero => exact absurd rfl h
      | succ j => simp
    | succ i =>
      cases j with
      | zero => simp
      | succ j =>
        have : j ≠ i := by omega
        simpa using ih i j this

lemma sum_set_add_getD (l : List ℚ) (i : ℕ) (x : ℚ) (h : i < l.length) :
    (l.set i x).sum + l.getD i 0 = l.sum + x := by
  induction l generalizing i with
  | nil => simp at h
  | cons y l ih =>
    cases i with
    | zero => simp [add_comm, add_left_comm]
    | succ i =>
      simp only [List.length_cons, Nat.succ_lt_succ_iff] at h
      have := ih i h
      simp only [List.set_cons_succ, List.sum_cons, List.getD_cons_succ]
      linarith

lemma getD_mem (l : List ℚ) (i : ℕ) (h : i < l.length) : l.getD i 0 ∈ l := by
  induction l generalizing i with
  | nil => simp at h
  | cons y l ih =>
    cases i with
    | zero => simp
    | succ i =>
      simp only [List.length_cons, Nat.succ_lt_succ_iff] at h
      simp only [List.getD_cons_succ]
      exact List.mem_cons_of_mem _ (ih i h)

lemma getD_mem_nat (l : List ℕ) (i : ℕ) (h : i < l.length) : l.getD i 0 ∈ l := by
  induction l generalizing i with
  | nil => simp at h
  | cons y l ih =>
    cases i with
    | zero => simp
    | succ i =>
      simp only [List.length_cons, Nat.succ_lt_succ_iff] at h
      simp only [List.getD_cons_succ]
      exact List.mem_cons_of_mem _ (ih i h)

lemma chooseFrom_mem (l : List ℕ) (d : ℕ) (h : ¬ l.isEmpty) : chooseFrom l d ∈ l := by
  have hne : l ≠ [] := by
    cases l with
    | nil => simp at h
    | cons x xs => simp
  have hlt : d % l.length < l.length := Nat.mod_lt _ (List.length_pos.mpr hne)
  exact getD_mem_nat l _ hlt

lemma sum_natCast (l : List ℚ) (h : ∀ x ∈ l, ∃ n : ℕ, x = n) :
    ∃ N : ℕ, l.sum = (N : ℚ) := by
  induction l with
  | nil => exact ⟨0, by simp⟩
  | cons x l ih =>
    obtain ⟨n, hn⟩ := h x (by simp)
    obtain ⟨N, hN⟩ := ih (fun y hy => h y (by simp [hy]))
    exact ⟨n + N, by simp [hn, hN]⟩

lemma intTrunc_natCast (n : ℕ) : intTrunc (n : ℚ) = (n : ℤ) := by
  simp [intTrunc, Int.floor_natCast]

lemma getD_replicate (n i : ℕ) (c : ℚ) (h : i < n) :
    (List.replicate n c).getD i 0 = c := by
  induction n generalizing i with
  | zero => simp at h
  | succ n ih =>
    cases i with
    | zero => simp [List.replicate_succ]
    | succ i =>
      simp only [List.replicate_succ, List.getD_cons_succ]
      exact ih i (by omega)

lemma inv_reset (cfg : EnvConfig) : Inv cfg (reset cfg).1 := by
  refine ⟨by simp [reset], by simp [reset], by simp [reset], by simp [reset],
    ?_, ?_, ?_, ?_, by simp [reset]⟩
  · intro x hx
    simp only [reset, List.mem_replicate] at hx
    exact ⟨0, by simp [hx.2]⟩
  · intro x hx
    simp only [reset, List.mem_replicate] at hx
    exact .inr hx.2
  · intro i hi h
    simp only [reset] at h ⊢
    rw [getD_replicate _ _ _ hi]
  · intro hpos x hx
    simp only [reset, List.mem_replicate] at hx
    rw [hx.2]
    linarith

lemma inv_stepArrival (cfg : EnvConfig) (s : EnvState) (a : ℕ) (h : Inv cfg s) :
    Inv cfg (stepArrival cfg s a).1 := by
  obtain ⟨h1, h2, h3, h4, h5, h6, h7, h8, h9⟩ := h
  unfold stepArrival
  split_ifs with ha hcond
  · obtain ⟨hstat, hocc⟩ := hcond
    have halen : a < s.node_occupancy.length := by rw [h2]; exact ha
    have hsum := sum_set_add_getD s.node_occupancy a (s.node_occupancy.getD a 0 + 1) halen
    refine ⟨h1, by simpa using h2, h3, ?_, ?_, h6, ?_, ?_, h9⟩
    · show ((s.num_agents + 1 : ℤ) : ℚ) = _
      push_cast
      rw [h4]
      linarith
    · intro x hx
      rcases List.mem_or_eq_of_mem_set hx with hx2 | hx2
      · exact h5 x hx2
      · obtain ⟨n, hn⟩ := h5 _ (getD_mem _ _ halen)
        exact ⟨n + 1, by rw [hx2, hn]; push_cast; ring⟩
    · intro i hi hstat0
      show (s.node_occupancy.set a (s.node_occupancy.getD a 0 + 1)).getD i 0 = 0
      have hia : i ≠ a := by
        intro hia
        rw [hia, hstat] at hstat0
        norm_num at hstat0
      rw [getD_set_ne _ _ _ _ hia]
      exact h7 i hi hstat0
    · intro hpos x hx
      rcases List.mem_or_eq_of_mem_set hx with hx2 | hx2
      · exact h8 hpos x hx2
      · have hcap : s.node_capacity.getD a 0 = cfg.default_node_capacity := by
          rw [h3]
          exact getD_replicate _ _ _ ha
        rw [hx2]
        rw [hcap] at hocc
        linarith
  · exact ⟨h1, h2, h3, h4, h5, h6, h7, h8, h9⟩
  · exact ⟨h1, h2, h3, h4, h5, h6, h7, h8, h9⟩

lemma inv_stepDeparture (cfg : EnvConfig) (s : EnvState) (draw : ℕ) (h : Inv cfg s) :
    Inv cfg (stepDeparture s draw).1 := by
  obtain ⟨h1, h2, h3, h4, h5, h6, h7, h8, h9⟩ := h
  unfold stepDeparture
  dsimp only
  split_ifs with hag hemp
  · exact ⟨h1, h2, h3, h4, h5, h6, h7, h8, h9⟩
  · have hjmem := chooseFrom_mem _ draw hemp
    obtain ⟨hjr, hjp⟩ := List.mem_filter.mp hjmem
    set j := chooseFrom ((List.range s.node_occupancy.length).filter
      (fun j => decide (0 < s.node_occupancy.getD j 0))) draw with hjdef
    have hjlen : j < s.node_occupancy.length := List.mem_range.mp hjr
    have hjpos : 0 < s.node_occupancy.getD j 0 := of_decide_eq_true hjp
    have hsum := sum_set_add_getD s.node_occupancy j (s.node_occupancy.getD j 0 - 1) hjlen
    refine ⟨h1, by simpa using h2, h3, ?_, ?_, h6, ?_, ?_, h9⟩
    · show ((s.num_agents - 1 : ℤ) : ℚ) = _
      push_cast
      rw [h4]
      linarith
    · intro x hx
      rcases List.mem_or_eq_of_mem_set hx with hx2 | hx2
      · exact h5 x hx2
      · obtain ⟨n, hn⟩ := h5 _ (getD_mem _ _ hjlen)
        have hn1 : 1 ≤ n := by
          by_contra hc
          have : n = 0 := by omega
          rw [hn, this] at hjpos
          norm_num at hjpos
        refine ⟨n - 1, ?_⟩
        rw [hx2, hn]
        push_cast [hn1]
        ring
    · intro i hi hstat0
      show (s.node_occupancy.set j (s.node_occupancy.getD j 0 - 1)).getD i 0 = 0
      have hij : i ≠ j := by
        intro hij
        have := h7 i hi hstat0
        rw [hij] at this
        rw [this] at hjpos
        norm_num at hjpos
      rw [getD_set_ne _ _ _ _ hij]
      exact h7 i hi hstat0
    · intro hpos x hx
      rcases List.mem_or_eq_of_mem_set hx with hx2 | hx2
      · exact h8 hpos x hx2
      · have := h8 hpos _ (getD_mem _ _ hjlen)
        rw [hx2]
        linarith
  · exact ⟨h1, h2, h3, h4, h5, h6, h7, h8, h9⟩

lemma inv_stepFailure (cfg : EnvConfig) (s : EnvState) (draw : ℕ) (h : Inv cfg s) :
    Inv cfg (stepFailure s draw).1 := by
  obtain ⟨h1, h2, h3, h4, h5, h6, h7, h8, h9⟩ := h
  unfold stepFailure
  dsimp only
  split_ifs with hemp
  · exact ⟨h1, h2, h3, h4, h5, h6, h7, h8, h9⟩
  · have hjmem := chooseFrom_mem _ draw hemp
    obtain ⟨hjr, hjp⟩ := List.mem_filter.mp hjmem
    set j := chooseFrom ((List.range s.node_status.length).filter
      (fun j => decide (s.node_status.getD j 0 = 1))) draw with hjdef
    have hjslen : j < s.node_status.length := List.mem_range.mp hjr
    have hjolen : j < s.node_occupancy.length := by rw [h2]; rw [h1] at hjslen; exact hjslen
    have hnat : ∀ x ∈ s.node_occupancy.set j 0, ∃ n : ℕ, x = (n : ℚ) := by
      intro x hx
      rcases List.mem_or_eq_of_mem_set hx with hx2 | hx2
      · exact h5 x hx2
      · exact ⟨0, by simp [hx2]⟩
    obtain ⟨N, hN⟩ := sum_natCast _ hnat
    have hsum := sum_set_add_getD s.node_occupancy j 0 hjolen
    have harg : (s.num_agents : ℚ) - s.node_occupancy.getD j 0 = (N : ℚ) := by
      rw [h4]
      linarith
    refine ⟨by simpa using h1, by simpa using h2, h3, ?_, hnat, ?_, ?_, ?_, h9⟩
    · show ((max 0 (intTrunc ((s.num_agents : ℚ) - s.node_occupancy.getD j 0)) : ℤ) : ℚ) = _
      rw [harg, intTrunc_natCast, max_eq_right (Int.natCast_nonneg N)]
      rw [hN]
      push_cast
      ring
    · intro x hx
      rcases List.mem_or_eq_of_mem_set hx with hx2 | hx2
      · exact h6 x hx2
      · exact .inl hx2
    · intro i hi _hstat0
      show (s.node_occupancy.set j 0).getD i 0 = 0
      by_cases hij : i = j
      · rw [hij]
        exact getD_set_self _ _ _ hjolen
      · rw [getD_set_ne _ _ _ _ hij]
        apply h7 i hi
        have := getD_set_ne s.node_status j i (0 : ℚ) hij
        rw [this] at _hstat0
        exact _hstat0
    · intro hpos x hx
      rcases List.mem_or_eq_of_mem_set hx with hx2 | hx2
      · exact h8 hpos x hx2
      · rw [hx2]
        linarith

lemma inv_stepRecovery (cfg : EnvConfig) (s : EnvState) (draw : ℕ) (h : Inv cfg s) :
    Inv cfg (stepRecovery s draw).1 := by
  obtain ⟨h1, h2, h3, h4, h5, h6, h7, h8, h9⟩ := h
  unfold stepRecovery
  dsimp only
  split_ifs with hemp
  · exact ⟨h1, h2, h3, h4, h5, h6, h7, h8, h9⟩
  · have hjmem := chooseFrom_mem _ draw hemp
    obtain ⟨hjr, hjp⟩ := List.mem_filter.mp hjmem
    set j := chooseFrom ((List.range s.node_status.length).filter
      (fun j => decide (s.node_status.getD j 0 = 0))) draw with hjdef
    have hjslen : j < s.node_status.length := List.mem_range.mp hjr
    refine ⟨by simpa using h1, h2, h3, h4, h5, ?_, ?_, h8, h9⟩
    · intro x hx
      rcases List.mem_or_eq_of_mem_set hx with hx2 | hx2
      · exact h6 x hx2
      · exact .inr hx2
    · intro i hi hstat0
      show s.node_occupancy.getD i 0 = 0
      by_cases hij : i = j
      · exfalso
        have : (s.node_status.set j 1).getD i 0 = 1 := by
          rw [hij]
          exact getD_set_self _ _ _ hjslen
        rw [this] at hstat0
        norm_num at hstat0
      · apply h7 i hi
        have := getD_set_ne s.node_status j i (1 : ℚ) hij
        rw [this] at hstat0
        exact hstat0

lemma inv_update_counters (cfg : EnvConfig) (s : EnvState) (e : Event) (n : ℕ)
    (h : Inv cfg s) : Inv cfg { s with steps := n, current_event := e } := by
  obtain ⟨h1, h2, h3, h4, h5, h6, h7, h8, h9⟩ := h
  exact ⟨h1, h2, h3, h4, h5, h6, h7, h8, h9⟩

lemma inv_step (cfg : EnvConfig) (s : EnvState) (a draw : ℕ) (e : Event)
    (h : Inv cfg s) : Inv cfg (step cfg s a draw e).1 := by
  cases hE : s.current_event <;> simp only [step, hE] <;> apply inv_update_counters
  · exact inv_stepArrival cfg s a h
  · exact inv_stepDeparture cfg s draw h
  · exact inv_stepFailure cfg s draw h
  · exact inv_stepRecovery cfg s draw h
  · exact h

lemma reachable_inv {cfg : EnvConfig} {s : EnvState} (h : Reachable cfg s) :
    Inv cfg s := by
  induction h with
  | start => exact inv_reset cfg
  | next s a draw e _hr ih => exact inv_step cfg s a draw e ih

/-! ### Branch-selection lemmas and counter lemmas for `step` -/

lemma stepArrival_deploy (cfg : EnvConfig) (s : EnvState) (a : ℕ)
    (ha : a < cfg.num_nodes)
    (hcond : s.node_status.getD a 0 = 1 ∧
      s.node_occupancy.getD a 0 < s.node_capacity.getD a 0) :
    stepArrival cfg s a =
      ({ s with
          node_occupancy := s.node_occupancy.set a (s.node_occupancy.getD a 0 + 1)
          num_agents := s.num_agents + 1 }, 1) := by
  unfold stepArrival
  rw [if_pos ha, if_pos hcond]

lemma stepArrival_fail (cfg : EnvConfig) (s : EnvState) (a : ℕ)
    (ha : a < cfg.num_nodes)
    (hcond : ¬ (s.node_status.getD a 0 = 1 ∧
      s.node_occupancy.getD a 0 < s.node_capacity.getD a 0)) :
    stepArrival cfg s a = (s, -1) := by
  unfold stepArrival
  rw [if_pos ha, if_neg hcond]

lemma stepArrival_reject (cfg : EnvConfig) (s : EnvState) (a : ℕ)
    (ha : ¬ a < cfg.num_nodes) :
    stepArrival cfg s a = (s, -(1/2)) := by
  unfold stepArrival
  rw [if_neg ha]

lemma stepArrival_counters (cfg : EnvConfig) (s : EnvState) (a : ℕ) :
    (stepArrival cfg s a).1.steps = s.steps ∧
    (stepArrival cfg s a).1.max_steps = s.max_steps := by
  unfold stepArrival
  split_ifs <;> exact ⟨rfl, rfl⟩

lemma stepDeparture_counters (s : EnvState) (draw : ℕ) :
    (stepDeparture s draw).1.steps = s.steps ∧
    (stepDeparture s draw).1.max_steps = s.max_steps := by
  unfold stepDeparture
  dsimp only
  split_ifs <;> exact ⟨rfl, rfl⟩

lemma stepFailure_counters (s : EnvState) (draw : ℕ) :
    (stepFailure s draw).1.steps = s.steps ∧
    (stepFailure s draw).1.max_steps = s.max_steps := by
  unfold stepFailure
  dsimp only
  split_ifs <;> exact ⟨rfl, rfl⟩

lemma stepRecovery_counters (s : EnvState) (draw : ℕ) :
    (stepRecovery s draw).1.steps = s.steps ∧
    (stepRecovery s draw).1.max_steps = s.max_steps := by
  unfold stepRecovery
  dsimp only
  split_ifs <;> exact ⟨rfl, rfl⟩

lemma step_counters (cfg : EnvConfig) (s : EnvState) (a draw : ℕ) (e : Event) :
    (step cfg s a draw e).1.steps = s.steps + 1 ∧
    (step cfg s a draw e).1.max_steps = s.max_steps ∧
    (step cfg s a draw e).2.2.1 = decide (s.max_steps ≤ s.steps + 1) ∧
    (step cfg s a draw e).2.2.2 = false := by
  cases hE : s.current_event <;> simp only [step, hE]
  · obtain ⟨hs, hm⟩ := stepArrival_counters cfg s a
    simp [hs, hm]
  · obtain ⟨hs, hm⟩ := stepDeparture_counters s draw
    simp [hs, hm]
  · obtain ⟨hs, hm⟩ := stepFailure_counters s draw
    simp [hs, hm]
  · obtain ⟨hs, hm⟩ := stepRecovery_counters s draw
    simp [hs, hm]
  · simp

lemma reachable_foldl (cfg : EnvConfig) (tr : List (ℕ × ℕ × Event)) (s : EnvState)
    (h : Reachable cfg s) :
    Reachable cfg (tr.foldl (fun s ade => (step cfg s ade.1 ade.2.1 ade.2.2).1) s) := by
  induction tr generalizing s with
  | nil => exact h
  | cons x tr ih => exact ih _ (Reachable.next s x.1 x.2.1 x.2.2 h)

lemma reachable_runTrace (cfg : EnvConfig) (tr : List (ℕ × ℕ × Event)) :
    Reachable cfg (runTrace cfg tr) :=
  reachable_foldl cfg tr _ Reachable.start

/-- C1: `compute_returns_and_advantages(gamma, gae_lambda)` performs the GAE
backward pass: for a buffer of length `T ≥ 1` the advantage at the last index
is `reward - value` (the bootstrap `next_value` is 0 there), at every earlier
index `t` it satisfies `adv[t] = (reward[t] + gamma * values[t+1] * (1 -
done[t]) - value[t]) + gamma * gae_lambda * (1 - done[t]) * adv[t+1]`, and
`return[t] = adv[t] + value[t]`; in particular a length-1 buffer with
`done = 1`, reward `r`, value `v` yields advantage `r - v` and return `r`,
and a length-2 buffer with `done = [0, 1]` yields `adv1 = r1 - v1`,
`adv0 = (r0 + g*v1 - v0) + g*l*adv1`, returns `adv_t + v_t`. -/
theorem c1_gae_backward_pass (g l : ℚ) (b : RolloutBuffer)
    (hv : b.values.length = b.rewards.length)
    (hd : b.dones.length = b.rewards.length)
    (hT : 1 ≤ b.rewards.length) :
    ((b.compute_returns_and_advantages g l).2.2.length = b.rewards.length ∧
      (b.compute_returns_and_advantages g l).2.1.length = b.rewards.length) ∧
    ((b.compute_returns_and_advantages g l).2.2.getD (b.rewards.length - 1) 0 =
      b.rewards.getD (b.rewards.length - 1) 0 - b.values.getD (b.rewards.length - 1) 0) ∧
    (∀ t, t + 1 < b.rewards.length →
      (b.compute_returns_and_advantages g l).2.2.getD t 0 =
        (b.rewards.getD t 0
          + g * b.values.getD (t + 1) 0 * (1 - doneVal (b.dones.getD t false))
          - b.values.getD t 0)
        + g * l * (1 - doneVal (b.dones.getD t false))
            * (b.compute_returns_and_advantages g l).2.2.getD (t + 1) 0) ∧
    (∀ t, t < b.rewards.length →
      (b.compute_returns_and_advantages g l).2.1.getD t 0 =
        (b.compute_returns_and_advantages g l).2.2.getD t 0 + b.values.getD t 0) ∧
    (∀ r v : ℚ,
      (RolloutBuffer.compute_returns_and_advantages ⟨[], [], [r], [], [v], [true]⟩ g l).2
        = ([r], [r - v])) ∧
    (∀ r0 r1 v0 v1 : ℚ,
      (RolloutBuffer.compute_returns_and_advantages
          ⟨[], [], [r0, r1], [], [v0, v1], [false, true]⟩ g l).2
        = ([((r0 + g * v1 - v0) + g * l * (r1 - v1)) + v0, r1],
           [(r0 + g * v1 - v0) + g * l * (r1 - v1), r1 - v1])) := by
  have hmap : (b.dones.map doneVal).length = b.rewards.length := by
    simpa using hd
  have hlen := gaeAdvantages_length g l b.rewards b.values (b.dones.map doneVal) hv hmap
  have hne : b.rewards ≠ [] := by
    intro h
    rw [h] at hT
    simp at hT
  refine ⟨⟨?_, ?_⟩, ?_, ?_, ?_, ?_, ?_⟩
  · simpa [RolloutBuffer.compute_returns_and_advantages] using hlen
  · simp only [RolloutBuffer.compute_returns_and_advantages]
    rw [List.length_zipWith, hlen, hv]
    simp
  · have := gaeAdvantages_getD_last g l b.rewards b.values (b.dones.map doneVal) hv hmap hne
    simpa [RolloutBuffer.compute_returns_and_advantages] using this
  · intro t ht
    have h2 := gaeAdvantages_getD_rec g l b.rewards b.values (b.dones.map doneVal) hv hmap t ht
    have hdt : ((b.dones.map doneVal)).getD t 0 = doneVal (b.dones.getD t false) := by
      apply getD_map_doneVal
      omega
    rw [hdt] at h2
    simpa [RolloutBuffer.compute_returns_and_advantages] using h2
  · intro t ht
    simp only [RolloutBuffer.compute_returns_and_advantages]
    apply getD_zipWith_add
    · rw [hlen]; exact ht
    · rw [hv]; exact ht
  · intro r v
    simp [RolloutBuffer.compute_returns_and_advantages, gaeAdvantages, doneVal]
  · intro r0 r1 v0 v1
    simp [RolloutBuffer.compute_returns_and_advantages, gaeAdvantages, doneVal]

/-- C1 witness: the characterization applied to the concrete buffer with
rewards `[2, 3]`, values `[1, 1]`, dones `[false, true]`. -/
theorem c1_gae_backward_pass_witness :
    ((⟨[], [], [2, 3], [], [1, 1], [false, true]⟩ : RolloutBuffer).values.length =
        (⟨[], [], [2, 3], [], [1, 1], [false, true]⟩ : RolloutBuffer).rewards.length) ∧
    ((⟨[], [], [2, 3], [], [1, 1], [false, true]⟩ : RolloutBuffer).dones.length =
        (⟨[], [], [2, 3], [], [1, 1], [false, true]⟩ : RolloutBuffer).rewards.length) ∧
    (1 ≤ (⟨[], [], [2, 3], [], [1, 1], [false, true]⟩ : RolloutBuffer).rewards.length) ∧
    ((RolloutBuffer.compute_returns_and_advantages
        ⟨[], [], [2, 3], [], [1, 1], [false, true]⟩ (1/2) (1/2)).2.2.getD 1 0 =
      (⟨[], [], [2, 3], [], [1, 1], [false, true]⟩ : RolloutBuffer).rewards.getD 1 0 -
        (⟨[], [], [2, 3], [], [1, 1], [false, true]⟩ : RolloutBuffer).values.getD 1 0) :=
  ⟨by decide, by decide, by decide,
    ((c1_gae_backward_pass (1/2) (1/2) ⟨[], [], [2, 3], [], [1, 1], [false, true]⟩
      (by decide) (by decide) (by decide)).2.1)⟩

/-- C9: starting from a fresh buffer, any sequence of `add` and `clear`
calls keeps the six parallel sequences at equal length; a `clear` leaves a
buffer of length 0; and operations after a `clear` act exactly as on a
freshly constructed buffer. -/
theorem c9_buffer_sequences (ops ops2 : List BufOp) :
    EqLens (applyOps RolloutBuffer.fresh ops) ∧
    (applyOps RolloutBuffer.fresh ops).clear.length = 0 ∧
    applyOps ((applyOps RolloutBuffer.fresh ops).clear) ops2 =
      applyOps RolloutBuffer.fresh ops2 :=
  ⟨eqLens_applyOps eqLens_fresh ops, rfl, rfl⟩

/-- C10: `get` and `compute_returns_and_advantages` leave the buffer
unchanged (they only read the stored sequences), and calling
`compute_returns_and_advantages` twice in a row with the same parameters on
the unchanged buffer yields identical results. -/
theorem c10_buffer_read_only (b : RolloutBuffer) (g l : ℚ) :
    (b.get).1 = b ∧
    (b.compute_returns_and_advantages g l).1 = b ∧
    (((b.compute_returns_and_advantages g l).1).compute_returns_and_advantages g l).2 =
      (b.compute_returns_and_advantages g l).2 ∧
    ((b.get).1).get = b.get :=
  ⟨rfl, rfl, rfl, rfl⟩

/-- C2 counterexample: a one-sample mini-batch whose ratio
`exp(log 2 - 0) = 2` lies outside `[1 - 1/5, 1 + 1/5]`, yet with advantage
`-1` the surrogate objective does not use the clipped branch: the policy
loss (2) differs from the clipped-branch loss (6/5). -/
theorem c2_clipping_counterexample :
    (∀ i < (ratio Real.exp [Real.log 2] [0]).length,
      (ratio Real.exp [Real.log 2] [0]).getD i 0 < 1 - 1/5 ∨
        1 + 1/5 < (ratio Real.exp [Real.log 2] [0]).getD i 0) ∧
    policy_loss (1/5) (ratio Real.exp [Real.log 2] [0]) [-1] ≠
      clipped_policy_loss (1/5) (ratio Real.exp [Real.log 2] [0]) [-1] := by
  have h2 : ratio Real.exp [Real.log 2] [0] = [2] := by
    simp [ratio, Real.exp_log]
  rw [h2]
  constructor
  · intro i hi
    have hi0 : i = 0 := by simpa using hi
    subst hi0
    right
    norm_num
  · simp only [policy_loss, clipped_policy_loss, clamp, mean, List.zipWith_cons_cons,
      List.zipWith_nil_right]
    norm_num [min_def, max_def]

/-- C2 (amended): inside a PPO mini-batch the ratio is
`exp(new_log_prob - old_log_prob)`, the value loss is the elementwise max of
squared errors of the raw and of the `±eps`-clipped value prediction against
the return, the entropy loss is `-mean(entropy)`, the total loss is
`policy_loss + value_coef * value_loss + entropy_coef * entropy_loss`, and
whenever every sample's ratio lies outside `[1-eps, 1+eps]` on the side
matching its advantage's sign (ratio above `1+eps` with nonnegative
advantage, or below `1-eps` with nonpositive advantage), the surrogate
objective uses the clipped branch: the policy loss equals the
clipped-branch loss. -/
theorem c2_ppo_losses (eps value_coef entropy_coef : ℝ)
    (log_probs old_log_probs advantages values old_values returns entropies : List ℝ)
    (heps : 0 ≤ eps)
    (hclip : ∀ i < (ratio Real.exp log_probs old_log_probs).length,
      (1 + eps < (ratio Real.exp log_probs old_log_probs).getD i 0 ∧
        0 ≤ advantages.getD i 0) ∨
      ((ratio Real.exp log_probs old_log_probs).getD i 0 < 1 - eps ∧
        advantages.getD i 0 ≤ 0)) :
    (ratio Real.exp log_probs old_log_probs =
      List.zipWith (fun n o => Real.exp (n - o)) log_probs old_log_probs) ∧
    (value_loss eps values old_values returns =
      mean (zipWith3
        (fun v ov ret =>
          max ((v - ret) ^ 2) ((ov + clamp (v - ov) (-eps) eps - ret) ^ 2))
        values old_values returns)) ∧
    (entropy_loss entropies = -(mean entropies)) ∧
    (total_loss eps value_coef entropy_coef (ratio Real.exp log_probs old_log_probs)
        advantages values old_values returns entropies =
      policy_loss eps (ratio Real.exp log_probs old_log_probs) advantages
        + value_coef * value_loss eps values old_values returns
        + entropy_coef * entropy_loss entropies) ∧
    policy_loss eps (ratio Real.exp log_probs old_log_probs) advantages =
      clipped_policy_loss eps (ratio Real.exp log_probs old_log_probs) advantages := by
  refine ⟨rfl, rfl, rfl, rfl, ?_⟩
  have hz : List.zipWith
      (fun r a => min (r * a) (clamp r (1 - eps) (1 + eps) * a))
      (ratio Real.exp log_probs old_log_probs) advantages =
    List.zipWith (fun r a => clamp r (1 - eps) (1 + eps) * a)
      (ratio Real.exp log_probs old_log_probs) advantages := by
    apply zipWith_congr_getD
    intro i h1 _h2
    exact min_surr_eq_clipped eps _ _ heps (hclip i h1)
  simp [policy_loss, clipped_policy_loss, hz]

/-- C2 witness: the amended theorem applied at `eps = 1/5`, a one-sample
batch with ratio `exp(log 2) = 2 > 6/5` and advantage `1 ≥ 0`. -/
theorem c2_ppo_losses_witness :
    (0 ≤ (1/5 : ℝ)) ∧
    (∀ i < (ratio Real.exp [Real.log 2] [0]).length,
      (1 + 1/5 < (ratio Real.exp [Real.log 2] [0]).getD i 0 ∧
        0 ≤ ([1] : List ℝ).getD i 0) ∨
      ((ratio Real.exp [Real.log 2] [0]).getD i 0 < 1 - 1/5 ∧
        ([1] : List ℝ).getD i 0 ≤ 0)) ∧
    policy_loss (1/5) (ratio Real.exp [Real.log 2] [0]) [1] =
      clipped_policy_loss (1/5) (ratio Real.exp [Real.log 2] [0]) [1] := by
  have hyp : ∀ i < (ratio Real.exp [Real.log 2] [0]).length,
      (1 + 1/5 < (ratio Real.exp [Real.log 2] [0]).getD i 0 ∧
        0 ≤ ([1] : List ℝ).getD i 0) ∨
      ((ratio Real.exp [Real.log 2] [0]).getD i 0 < 1 - 1/5 ∧
        ([1] : List ℝ).getD i 0 ≤ 0) := by
    intro i hi
    have h2 : ratio Real.exp [Real.log 2] [0] = [2] := by
      simp [ratio, Real.exp_log]
    rw [h2] at hi ⊢
    have hi0 : i = 0 := by simpa using hi
    subst hi0
    left
    norm_num
  exact ⟨by norm_num, hyp,
    (c2_ppo_losses (1/5) 0 0 [Real.log 2] [0] [1] [] [] [] [] (by norm_num) hyp).2.2.2.2⟩

lemma getD_zipWith_div (xs ys : List ℚ) (t : ℕ) (ht : t < xs.length)
    (ht2 : t < ys.length) :
    (List.zipWith (fun o c => o / c) xs ys).getD t 0 = xs.getD t 0 / ys.getD t 0 := by
  induction xs generalizing ys t with
  | nil => simp at ht
  | cons x xs ih =>
    cases ys with
    | nil => simp at ht2
    | cons y ys =>
      cases t with
      | zero => simp
      | succ t =>
        simp only [List.length_cons, Nat.succ_lt_succ_iff] at ht ht2
        simpa using ih ys t ht ht2

/-- C3 counterexample: with a non-integer capacity (1/2 per node, as the
constructor accepts any positive float), the reachable state after one
successful deployment has occupancy 1 on node 0, strictly above its
capacity, refuting `node_occupancy[i] <= node_capacity[i]`. -/
theorem c3_capacity_counterexample :
    Reachable cfgHalf (runTrace cfgHalf [(0, 0, .agent_arrival), (0, 0, .no_event)]) ∧
    ¬ ((runTrace cfgHalf
          [(0, 0, .agent_arrival), (0, 0, .no_event)]).node_occupancy.getD 0 0 ≤
        (runTrace cfgHalf
          [(0, 0, .agent_arrival), (0, 0, .no_event)]).node_capacity.getD 0 0) := by
  have h0 : runTrace cfgHalf [(0, 0, .agent_arrival), (0, 0, .no_event)] =
      (step cfgHalf (step cfgHalf (reset cfgHalf).1 0 0 .agent_arrival).1
        0 0 .no_event).1 := by
    simp [runTrace]
  have h1 : (step cfgHalf (reset cfgHalf).1 0 0 .agent_arrival).1 =
      { node_status := [1], node_occupancy := [0], node_capacity := [1/2],
        num_agents := 0, current_event := .agent_arrival, steps := 1,
        max_steps := 100 } := by
    norm_num [cfgHalf, step, reset, stepArrival, stepDeparture, stepFailure,
      stepRecovery, chooseFrom]
  have h2 : (step cfgHalf
      ({ node_status := [1], node_occupancy := [0], node_capacity := [1/2],
          num_agents := 0, current_event := .agent_arrival, steps := 1,
          max_steps := 100 } : EnvState) 0 0 .no_event).1 =
      { node_status := [1], node_occupancy := [1], node_capacity := [1/2],
        num_agents := 1, current_event := .no_event, steps := 2,
        max_steps := 100 } := by
    norm_num [cfgHalf, step, stepArrival]
  refine ⟨reachable_runTrace _ _, ?_⟩
  rw [h0, h1, h2]
  norm_num

/-- C3 (amended): in every reachable state, `num_agents` equals the sum of
`node_occupancy`; each occupancy is nonnegative and, when the configured
capacity is positive, strictly below `capacity + 1` (hence at most the
capacity whenever the capacity is an integer — for fractional capacities a
successful deployment can overshoot, see the counterexample); each
`node_status` entry is 0 or 1; and any node whose status is 0 has occupancy
0 (so a step that sets a status to 0 zeroes that occupancy in the same
step). -/
theorem c3_env_invariants (cfg : EnvConfig) (s : EnvState) (h : Reachable cfg s) :
    (s.num_agents : ℚ) = s.node_occupancy.sum ∧
    (∀ i < cfg.num_nodes, 0 ≤ s.node_occupancy.getD i 0) ∧
    (0 < cfg.default_node_capacity → ∀ i < cfg.num_nodes,
      s.node_occupancy.getD i 0 < s.node_capacity.getD i 0 + 1) ∧
    (∀ i < cfg.num_nodes, s.node_status.getD i 0 = 0 ∨ s.node_status.getD i 0 = 1) ∧
    (∀ i < cfg.num_nodes, s.node_status.getD i 0 = 0 → s.node_occupancy.getD i 0 = 0) := by
  obtain ⟨h1, h2, h3, h4, h5, h6, h7, h8, h9⟩ := reachable_inv h
  refine ⟨h4, ?_, ?_, ?_, h7⟩
  · intro i hi
    have hilen : i < s.node_occupancy.length := by rw [h2]; exact hi
    obtain ⟨n, hn⟩ := h5 _ (getD_mem _ _ hilen)
    rw [hn]
    positivity
  · intro hpos i hi
    have hilen : i < s.node_occupancy.length := by rw [h2]; exact hi
    have hcap : s.node_capacity.getD i 0 = cfg.default_node_capacity := by
      rw [h3]
      exact getD_replicate _ _ _ hi
    rw [hcap]
    exact h8 hpos _ (getD_mem _ _ hilen)
  · intro i hi
    have hilen : i < s.node_status.length := by rw [h1]; exact hi
    exact h6 _ (getD_mem _ _ hilen)

/-- C3 witness: the amended invariant applied at the reset state of a
3-node environment with capacity 5. -/
theorem c3_env_invariants_witness :
    Reachable ⟨3, 5, 10, 5, defaultEventProbabilities⟩
      (reset ⟨3, 5, 10, 5, defaultEventProbabilities⟩).1 ∧
    (((reset ⟨3, 5, 10, 5, defaultEventProbabilities⟩).1.num_agents : ℚ) =
      (reset ⟨3, 5, 10, 5, defaultEventProbabilities⟩).1.node_occupancy.sum) :=
  ⟨Reachable.start,
    (c3_env_invariants ⟨3, 5, 10, 5, defaultEventProbabilities⟩ _ Reachable.start).1⟩

/-- C4: on an `agent_arrival` event with an in-range action, `step`
increments the chosen node's occupancy and `num_agents` with reward +1
exactly when the node is active and strictly below capacity; otherwise it
gives reward -1 and leaves status, occupancy and agent count unchanged; an
out-of-range action (reject, `action = num_nodes`) gives reward -1/2 with
those fields unchanged. -/
theorem c4_arrival_semantics (cfg : EnvConfig) (s : EnvState) (a draw : ℕ) (e : Event)
    (hE : s.current_event = .agent_arrival) :
    (a < cfg.num_nodes →
      ((s.node_status.getD a 0 = 1 ∧
          s.node_occupancy.getD a 0 < s.node_capacity.getD a 0) →
        (step cfg s a draw e).2.1 = 1 ∧
        (step cfg s a draw e).1.node_occupancy =
          s.node_occupancy.set a (s.node_occupancy.getD a 0 + 1) ∧
        (step cfg s a draw e).1.num_agents = s.num_agents + 1 ∧
        (step cfg s a draw e).1.node_status = s.node_status) ∧
      (¬ (s.node_status.getD a 0 = 1 ∧
          s.node_occupancy.getD a 0 < s.node_capacity.getD a 0) →
        (step cfg s a draw e).2.1 = -1 ∧
        (step cfg s a draw e).1.node_occupancy = s.node_occupancy ∧
        (step cfg s a draw e).1.num_agents = s.num_agents ∧
        (step cfg s a draw e).1.node_status = s.node_status)) ∧
    (¬ a < cfg.num_nodes →
      (step cfg s a draw e).2.1 = -(1/2) ∧
      (step cfg s a draw e).1.node_occupancy = s.node_occupancy ∧
      (step cfg s a draw e).1.num_agents = s.num_agents ∧
      (step cfg s a draw e).1.node_status = s.node_status) := by
  refine ⟨fun ha => ⟨fun hcond => ?_, fun hcond => ?_⟩, fun ha => ?_⟩
  · simp [step, hE, stepArrival_deploy cfg s a ha hcond]
  · simp [step, hE, stepArrival_fail cfg s a ha hcond]
  · simp [step, hE, stepArrival_reject cfg s a ha]

/-- C4 witness: deploying to the empty active node 0 of a 1-node
environment succeeds with reward +1. -/
theorem c4_arrival_semantics_witness :
    ((runTrace ⟨1, 5, 10, 5, defaultEventProbabilities⟩
        [(0, 0, .agent_arrival)]).current_event = Event.agent_arrival) ∧
    ((step ⟨1, 5, 10, 5, defaultEventProbabilities⟩
        (runTrace ⟨1, 5, 10, 5, defaultEventProbabilities⟩ [(0, 0, .agent_arrival)])
        0 0 .no_event).2.1 = 1) := by
  have hE : (runTrace ⟨1, 5, 10, 5, defaultEventProbabilities⟩
      [(0, 0, .agent_arrival)]).current_event = Event.agent_arrival := by decide
  refine ⟨hE, ?_⟩
  have h := (c4_arrival_semantics ⟨1, 5, 10, 5, defaultEventProbabilities⟩
    (runTrace ⟨1, 5, 10, 5, defaultEventProbabilities⟩ [(0, 0, .agent_arrival)])
    0 0 .no_event hE).1 (by decide)
  exact (h.1 (by decide)).1

/-- C7: for every state whose current event is not `agent_arrival`, `step`
returns the same successor state, reward, and flags for any two actions
given the same draw and next event: the action is never consulted. -/
theorem c7_action_ignored_off_arrival (cfg : EnvConfig) (s : EnvState)
    (a1 a2 draw : ℕ) (e : Event) (h : s.current_event ≠ Event.agent_arrival) :
    step cfg s a1 draw e = step cfg s a2 draw e := by
  cases hE : s.current_event
  · exact absurd hE h
  all_goals simp only [step, hE]

/-- C7 witness: at the reset state (event `no_event`), actions 0 and 7
produce identical outcomes. -/
theorem c7_action_ignored_off_arrival_witness :
    ((reset ⟨3, 5, 10, 5, defaultEventProbabilities⟩).1.current_event ≠
      Event.agent_arrival) ∧
    step ⟨3, 5, 10, 5, defaultEventProbabilities⟩
        (reset ⟨3, 5, 10, 5, defaultEventProbabilities⟩).1 0 0 .no_event =
      step ⟨3, 5, 10, 5, defaultEventProbabilities⟩
        (reset ⟨3, 5, 10, 5, defaultEventProbabilities⟩).1 7 0 .no_event :=
  ⟨by decide,
    c7_action_ignored_off_arrival ⟨3, 5, 10, 5, defaultEventProbabilities⟩
      _ 0 7 0 .no_event (by decide)⟩

/-- C8: from any reachable state, `step` reports `terminated = true` exactly
when the incremented step counter has reached the 100-step horizon, and
`truncated = false` always; no other state condition influences
termination. -/
theorem c8_termination (cfg : EnvConfig) (s : EnvState) (a draw : ℕ) (e : Event)
    (h : Reachable cfg s) :
    ((step cfg s a draw e).2.2.1 = true ↔ 100 ≤ s.steps + 1) ∧
    (step cfg s a draw e).2.2.2 = false := by
  obtain ⟨_hs, _hm, hterm, htrunc⟩ := step_counters cfg s a draw e
  have h9 : s.max_steps = 100 :=
    (reachable_inv h).2.2.2.2.2.2.2.2
  refine ⟨?_, htrunc⟩
  rw [hterm, h9]
  exact decide_eq_true_iff

/-- C8 witness: the first step after reset does not terminate
(1 < 100). -/
theorem c8_termination_witness :
    Reachable ⟨3, 5, 10, 5, defaultEventProbabilities⟩
      (reset ⟨3, 5, 10, 5, defaultEventProbabilities⟩).1 ∧
    (((step ⟨3, 5, 10, 5, defaultEventProbabilities⟩
        (reset ⟨3, 5, 10, 5, defaultEventProbabilities⟩).1 0 0 .no_event).2.2.1 = true) ↔
      100 ≤ (reset ⟨3, 5, 10, 5, defaultEventProbabilities⟩).1.steps + 1) :=
  ⟨Reachable.start,
    (c8_termination ⟨3, 5, 10, 5, defaultEventProbabilities⟩ _ 0 0 .no_event
      Reachable.start).1⟩

/-- C5 counterexample: with `max_agents = 1` (a legal constructor argument)
and capacity 5, two successful deployments are reachable, after which the
final observation entry `num_agents / max_agents` equals 2, outside
`[0, 1]`: the environment never caps `num_agents` at `max_agents`. -/
theorem c5_agent_entry_counterexample :
    Reachable cfgTiny (runTrace cfgTiny
      [(0, 0, .agent_arrival), (0, 0, .agent_arrival), (0, 0, .no_event)]) ∧
    1 < (getObservation cfgTiny (runTrace cfgTiny
        [(0, 0, .agent_arrival), (0, 0, .agent_arrival), (0, 0, .no_event)])).getD
      (numEventTypes + 2 * cfgTiny.num_nodes) 0 := by
  have h0 : runTrace cfgTiny
      [(0, 0, .agent_arrival), (0, 0, .agent_arrival), (0, 0, .no_event)] =
      (step cfgTiny (step cfgTiny (step cfgTiny (reset cfgTiny).1
        0 0 .agent_arrival).1 0 0 .agent_arrival).1 0 0 .no_event).1 := by
    simp [runTrace]
  have h1 : (step cfgTiny (reset cfgTiny).1 0 0 .agent_arrival).1 =
      { node_status := [1], node_occupancy := [0], node_capacity := [5],
        num_agents := 0, current_event := .agent_arrival, steps := 1,
        max_steps := 100 } := by
    norm_num [cfgTiny, step, reset]
  have h2 : (step cfgTiny
      ({ node_status := [1], node_occupancy := [0], node_capacity := [5],
          num_agents := 0, current_event := .agent_arrival, steps := 1,
          max_steps := 100 } : EnvState) 0 0 .agent_arrival).1 =
      { node_status := [1], node_occupancy := [1], node_capacity := [5],
        num_agents := 1, current_event := .agent_arrival, steps := 2,
        max_steps := 100 } := by
    norm_num [cfgTiny, step, stepArrival]
  have h3 : (step cfgTiny
      ({ node_status := [1], node_occupancy := [1], node_capacity := [5],
          num_agents := 1, current_event := .agent_arrival, steps := 2,
          max_steps := 100 } : EnvState) 0 0 .no_event).1 =
      { node_status := [1], node_occupancy := [2], node_capacity := [5],
        num_agents := 2, current_event := .no_event, steps := 3,
        max_steps := 100 } := by
    norm_num [cfgTiny, step, stepArrival]
  refine ⟨reachable_runTrace _ _, ?_⟩
  rw [h0, h1, h2, h3]
  norm_num [getObservation, eventOneHot, numEventTypes, eventIdx, cfgTiny,
    List.range_succ]

/-- C5 (amended): every observation is the concatenation of the one-hot
event, the status flags, the occupancy-over-capacity entries, and
`num_agents / max_agents`, with total length `num_event_types + 2 *
num_nodes + 1`; in every reachable state the normalized occupancy entries
lie in `[0, 1]` provided the configured capacity is a positive integer, and
the agent-count entry is nonnegative when `max_agents` is (but it can
exceed 1: `num_agents` is not capped by `max_agents`, see the
counterexample). -/
theorem c5_observation (cfg : EnvConfig) (s : EnvState) (h : Reachable cfg s) :
    getObservation cfg s =
      eventOneHot s.current_event ++ s.node_status ++
        List.zipWith (fun o c => o / c) s.node_occupancy s.node_capacity ++
        [(s.num_agents : ℚ) / (cfg.max_agents : ℚ)] ∧
    (getObservation cfg s).length = numEventTypes + 2 * cfg.num_nodes + 1 ∧
    ((∃ k : ℕ, cfg.default_node_capacity = (k : ℚ) ∧ 0 < k) →
      ∀ i < cfg.num_nodes,
        0 ≤ (List.zipWith (fun o c => o / c)
              s.node_occupancy s.node_capacity).getD i 0 ∧
        (List.zipWith (fun o c => o / c)
            s.node_occupancy s.node_capacity).getD i 0 ≤ 1) ∧
    (0 ≤ cfg.max_agents → 0 ≤ (s.num_agents : ℚ) / (cfg.max_agents : ℚ)) := by
  obtain ⟨h1, h2, h3, h4, h5, h6, h7, h8, h9⟩ := reachable_inv h
  refine ⟨rfl, ?_, ?_, ?_⟩
  · have hc : s.node_capacity.length = cfg.num_nodes := by simp [h3]
    simp only [getObservation, eventOneHot, numEventTypes, List.length_append,
      List.length_map, List.length_range, List.length_zipWith, List.length_cons,
      List.length_nil, h1, h2, hc]
    omega
  · rintro ⟨k, hk, hkpos⟩ i hi
    have hio : i < s.node_occupancy.length := by rw [h2]; exact hi
    have hic : i < s.node_capacity.length := by simp [h3]; exact hi
    have hcap : s.node_capacity.getD i 0 = cfg.default_node_capacity := by
      rw [h3]
      exact getD_replicate _ _ _ hi
    obtain ⟨n, hn⟩ := h5 _ (getD_mem _ _ hio)
    have hpos : (0 : ℚ) < cfg.default_node_capacity := by
      rw [hk]
      exact_mod_cast hkpos
    have hb := h8 hpos _ (getD_mem _ _ hio)
    rw [getD_zipWith_div _ _ _ hio hic, hcap, hn, hk]
    rw [hn, hk] at hb
    have hnk : n ≤ k := by
      have hlt : n < k + 1 := by exact_mod_cast hb
      omega
    constructor
    · positivity
    · rw [div_le_one (by exact_mod_cast hkpos)]
      exact_mod_cast hnk
  · intro hmax
    apply div_nonneg
    · rw [h4]
      apply List.sum_nonneg
      intro x hx
      obtain ⟨n, hn⟩ := h5 x hx
      rw [hn]
      positivity
    · exact_mod_cast hmax

/-- C5 witness: the observation length of the reset state of the default
3-node configuration is `5 + 2*3 + 1`. -/
theorem c5_observation_witness :
    Reachable cfgDefault (reset cfgDefault).1 ∧
    (getObservation cfgDefault (reset cfgDefault).1).length =
      numEventTypes + 2 * cfgDefault.num_nodes + 1 :=
  ⟨Reachable.start, (c5_observation cfgDefault _ Reachable.start).2.1⟩

/-- C6 counterexample: the constructor accepts a zero node count, a zero
capacity, and an event probability vector summing to 5, returning a usable
environment in each case — no configuration error is raised at
construction. -/
theorem c6_no_validation_counterexample :
    ((init 0 5 10 5 none).toOption.isSome = true) ∧
    ((init 3 5 10 0 none).toOption.isSome = true) ∧
    ((init 3 5 10 5 (some [1, 1, 1, 1, 1])).toOption.isSome = true) :=
  ⟨rfl, rfl, rfl⟩

/-- C6 (amended): construction performs no validation of the
configuration: it succeeds exactly when the node count is nonnegative
(a negative count fails in array allocation); node count 0, non-positive
capacities, and non-distribution probability vectors are all accepted,
the latter only raising later, at the first event draw inside `step`. -/
theorem c6_construction_no_validation (num_nodes num_services max_agents : ℤ)
    (node_capacity : ℚ) (event_probabilities : Option (List ℚ)) :
    ((init num_nodes num_services max_agents node_capacity
        event_probabilities).toOption.isSome = true) ↔ 0 ≤ num_nodes := by
  unfold init
  split_ifs with hneg
  · simp [Except.toOption]
    omega
  · simp [Except.toOption]
    omega

end PPOBaseline
